import Mathlib

/-!
Verification of the core logic of the MTSAD monitoring dashboard.

The development shallowly embeds the incident/alarm detection algorithm of
`pages/2_개선된_알람.py` (the per-device scan that finds maximal contiguous
runs of points whose `product_anomaly_score` strictly exceeds `alpha`, keeps
those lasting at least `beta` minutes, and enriches them with sensor- and
event-level evidence) and the rule-based diagnosis of `pages/3_상세_정보.py`
(severity bands on the maximum score plus a conditional recommendation list).

Modelling conventions: timestamps are rationals counting seconds from an
arbitrary epoch (the source subtracts `pandas` datetimes and converts with
`total_seconds() / 60`); anomaly scores are rationals; the serialized
per-point sensor map is represented by its parse result, `none` standing for
a string on which `ast.literal_eval` raises `ValueError`/`SyntaxError` and
`some m` for a successfully parsed mapping, kept as an association list in
dictionary iteration order.
-/

namespace MTSAD

/-- A row of `anomaly_data.csv` as the pages consume it: `time` (seconds),
`product_id`, the parsed `sensor_anomaly_score` map (`none` when
`ast.literal_eval` fails), and `product_anomaly_score`. -/
structure ScoreRow where
  time : ℚ
  product_id : String
  sensor_anomaly_score : Option (List (String × ℚ))
  product_anomaly_score : ℚ
deriving DecidableEq

/-- A row of `alert_data.csv`: a discrete named event for one device. -/
structure AlertRow where
  time : ℚ
  product_id : String
  identifier : String
deriving DecidableEq

/-- A row of `action_history.csv` (columns 조치 일자, product_id, 현상, 원인,
처방, rendered here as `action_date`, `product_id`, `symptom`, `cause`,
`treatment`). -/
structure ActionRow where
  action_date : ℚ
  product_id : String
  symptom : String
  cause : String
  treatment : String
deriving DecidableEq

/-- One detected alarm, the dictionary appended at lines 137-147 of
`2_개선된_알람.py`. `sensor_anomalies` lists `(time, sensor, score)` triples. -/
structure Alarm where
  product_id : String
  start_time : ℚ
  end_time : ℚ
  duration_minutes : ℚ
  max_score : ℚ
  sensor_anomalies : List (ℚ × String × ℚ)
  alerts : List AlertRow
deriving DecidableEq

/-- The strict threshold test `product_anomaly_score > alpha` of lines 90
and 98. -/
def isAbove (alpha : ℚ) (r : ScoreRow) : Bool :=
  decide (r.product_anomaly_score > alpha)

/-- Fuelled form of the scan loop of lines 88-151: from an above-threshold
point the inner loop extends the run while the next point stays above
(`takeWhile`), and the outer loop resumes at `i = end_idx + 1`
(`dropWhile`); a below-threshold point advances by one. One unit of fuel is
spent per outer iteration, so `length` fuel always suffices. -/
def detectRunsF (alpha : ℚ) : Nat → List ScoreRow → List (List ScoreRow)
  | 0, _ => []
  | _, [] => []
  | fuel + 1, r :: rest =>
    if isAbove alpha r then
      (r :: rest.takeWhile (isAbove alpha)) ::
        detectRunsF alpha fuel (rest.dropWhile (isAbove alpha))
    else
      detectRunsF alpha fuel rest

/-- The maximal contiguous above-threshold runs of a series, in scan order. -/
def detectRuns (alpha : ℚ) (rows : List ScoreRow) : List (List ScoreRow) :=
  detectRunsF alpha rows.length rows

/-- `product_data.iloc[start_idx]["time"]` of a run. -/
def firstTime : List ScoreRow → ℚ
  | [] => 0
  | r :: _ => r.time

/-- `product_data.iloc[end_idx]["time"]` of a run. -/
def lastTime : List ScoreRow → ℚ
  | [] => 0
  | [r] => r.time
  | _ :: r :: rs => lastTime (r :: rs)

/-- Line 105: `(end_time - start_time).total_seconds() / 60 + 2`; the final
`+ 2` is the hard-coded 2-minute sampling interval of the comment on
line 106. -/
def durationMinutes (run : List ScoreRow) : ℚ :=
  (lastTime run - firstTime run) / 60 + 2

/-- Line 143: `period_data["product_anomaly_score"].max()`. -/
def maxScoreOf : List ScoreRow → ℚ
  | [] => 0
  | r :: rs => rs.foldl (fun m x => max m x.product_anomaly_score) r.product_anomaly_score

/-- Lines 116-128 for a single row: the parsed sensor map contributes one
`(time, sensor, score)` triple per sensor with `score >= 1.0`; a row whose
map fails to parse contributes nothing (the `except` clause `continue`s). -/
def pointSensorAnomalies (r : ScoreRow) : List (ℚ × String × ℚ) :=
  match r.sensor_anomaly_score with
  | none => []
  | some m => (m.filter (fun p => decide (p.2 ≥ 1))).map (fun p => (r.time, p.1, p.2))

/-- Lines 114-128: the sensor-anomaly evidence of a run, row by row. -/
def sensorAnomaliesOf (run : List ScoreRow) : List (ℚ × String × ℚ) :=
  run.flatMap pointSensorAnomalies

/-- Lines 131-135: events of the same device within `[start_time, end_time]`,
both endpoints included. -/
def periodAlerts (alert_df : List AlertRow) (pid : String) (s e : ℚ) : List AlertRow :=
  alert_df.filter (fun a => a.product_id == pid && decide (s ≤ a.time) && decide (a.time ≤ e))

/-- The alarm dictionary built at lines 137-147 from one run. -/
def mkAlarm (pid : String) (alert_df : List AlertRow) (run : List ScoreRow) : Alarm :=
  { product_id := pid
    start_time := firstTime run
    end_time := lastTime run
    duration_minutes := durationMinutes run
    max_score := maxScoreOf run
    sensor_anomalies := sensorAnomaliesOf run
    alerts := periodAlerts alert_df pid (firstTime run) (lastTime run) }

/-- Lines 102-149: a run becomes an alarm exactly when
`duration_minutes >= beta`. -/
def detectAlarms (pid : String) (alpha beta : ℚ) (alert_df : List AlertRow)
    (rows : List ScoreRow) : List Alarm :=
  (detectRuns alpha rows).filterMap (fun run =>
    if durationMinutes run ≥ beta then some (mkAlarm pid alert_df run) else none)

/-- Ordering of score rows by timestamp, the `sort_values("time")` of
lines 80-82. -/
def byTime (a b : ScoreRow) : Prop := a.time ≤ b.time

instance : DecidableRel byTime := fun a b => inferInstanceAs (Decidable (a.time ≤ b.time))

instance : IsTotal ScoreRow byTime := ⟨fun a b => le_total a.time b.time⟩

instance : IsTrans ScoreRow byTime := ⟨fun _ _ _ h h' => le_trans h h'⟩

/-- Lines 78-151 for one `product_id`: filter the score table to the device,
sort by time, and scan. -/
def processProduct (anomaly_df : List ScoreRow) (alert_df : List AlertRow)
    (pid : String) (alpha beta : ℚ) : List Alarm :=
  detectAlarms pid alpha beta alert_df
    (List.insertionSort byTime (anomaly_df.filter (fun r => r.product_id == pid)))

/-- Does `hay` start with `needle`, character list against character list? -/
def listStartsWith : List Char → List Char → Bool
  | _, [] => true
  | [], _ :: _ => false
  | a :: as, b :: bs => a == b && listStartsWith as bs

/-- Does `needle` occur contiguously inside the character list? -/
def listContainsSub (needle : List Char) : List Char → Bool
  | [] => needle.isEmpty
  | a :: as => listStartsWith (a :: as) needle || listContainsSub needle as

/-- Python's substring test `needle in hay`. -/
def strContains (hay needle : String) : Bool :=
  listContainsSub needle.data hay.data

/-- Line 326: `"temperature-sensor" in str(high_sensor_list)`. The Python
rendering of the list of `(sensor, score)` tuples separates the quoted
sensor names with quotes, commas, parentheses and digit characters, none of
which occur in the needle `"temperature-sensor"`, so the substring occurs in
the rendering exactly when it occurs inside one of the sensor names; the
test is embedded in that form. -/
def tempSensorCheck (l : List (String × ℚ)) : Bool :=
  l.any (fun p => strContains p.1 "temperature-sensor")

/-- Lines 283-291 of `3_상세_정보.py`: every `(sensor, score)` pair with
`score >= 1.0` over the filtered rows, rows with unparseable maps skipped. -/
def highSensorList (points : List ScoreRow) : List (String × ℚ) :=
  points.flatMap (fun r =>
    match r.sensor_anomaly_score with
    | none => []
    | some m => m.filter (fun p => decide (p.2 ≥ 1)))

/-- Helper for `pandas.unique`: first occurrences, in order. -/
def uniqAux (seen : List String) : List String → List String
  | [] => []
  | x :: xs => if x ∈ seen then uniqAux seen xs else x :: uniqAux (x :: seen) xs

/-- Lines 294-298: `filtered_alert["identifier"].unique().tolist()`. -/
def uniqueIdentifiers (alerts : List AlertRow) : List String :=
  uniqAux [] (alerts.map (fun a => a.identifier))

/-- Ordering of maintenance actions by `action_date` descending, the
`sort_values("조치 일자", ascending=False)` of lines 134-137. -/
def byDateDesc (a b : ActionRow) : Prop := b.action_date ≤ a.action_date

instance : DecidableRel byDateDesc := fun a b => inferInstanceAs (Decidable (b.action_date ≤ a.action_date))

/-- Lines 300-306: the most recent three maintenance actions of the device,
most recent first (`head(3)` of the descending sort). -/
def recentActions (actions : List ActionRow) : List ActionRow :=
  (List.insertionSort byDateDesc actions).take 3

/-- The severity bands 높음 / 중간 / 낮음 of lines 312-320. -/
inductive Severity where
  | low
  | medium
  | high
deriving DecidableEq

/-- The recommendation strings of lines 325-343, in source order. -/
def highRec1 : String := "1. 온도 센서 점검 및 교체 검토"

/-- Cooling-system recommendation, line 329. -/
def highRec2 : String := "2. 냉각 시스템 점검 및 정비"

/-- Historical-fix recommendation, line 333. -/
def highRec3 : String := "3. 과거 조치 이력상 온도 센서 교체가 효과적이었습니다."

/-- Physical-inspection recommendation, line 335. -/
def highRec4 : String := "4. 현장 점검을 통한 물리적 상태 확인 권장"

/-- Medium-severity recommendations, lines 337-340. -/
def medRec1 : String := "1. 지속적인 모니터링 및 데이터 수집"

/-- Flagged-sensor inspection, line 339. -/
def medRec2 : String := "2. 이상 감지된 센서의 상세 점검"

/-- Preventive-maintenance scheduling, line 340. -/
def medRec3 : String := "3. 예방적 정비 일정 수립 검토"

/-- Low-severity recommendations, lines 342-343. -/
def lowRec1 : String := "1. 정기 점검 일정 유지"

/-- Continued monitoring, line 343. -/
def lowRec2 : String := "2. 현재 상태 모니터링 지속"

/-- Result of the AI-diagnosis rules: the severity band and the ordered
recommendation list. -/
structure Diagnosis where
  severity : Severity
  recommendations : List String
deriving DecidableEq

/-- Lines 309-343 of `3_상세_정보.py`: the deterministic decision table on
`max_score` with its conditional recommendations. `points` are the filtered
score rows of the window, `alerts` the filtered events, `actions` the
device's maintenance history (unsorted; the sort and `head(3)` happen in
`recentActions`, mirroring lines 134-137 and 303). -/
def aiDiagnosis (points : List ScoreRow) (alerts : List AlertRow)
    (actions : List ActionRow) : Diagnosis :=
  let max_score := maxScoreOf points
  let high_sensor_list := highSensorList points
  let alert_types := uniqueIdentifiers alerts
  let similar_actions := recentActions actions
  if max_score ≥ 2.5 then
    { severity := .high
      recommendations :=
        (if tempSensorCheck high_sensor_list then [highRec1] else []) ++
        (if "과열" ∈ alert_types ∨ "오버 히팅" ∈ alert_types then [highRec2] else []) ++
        (if similar_actions ≠ [] ∧
            similar_actions.any (fun a => strContains a.treatment "온도센서교체") then
          [highRec3] else []) ++
        [highRec4] }
  else if max_score ≥ 1.5 then
    { severity := .medium
      recommendations :=
        [medRec1] ++ (if high_sensor_list ≠ [] then [medRec2] else []) ++ [medRec3] }
  else
    { severity := .low
      recommendations := [lowRec1, lowRec2] }

/-- Lines 117-121: the score rows of one device within the query window,
both endpoints included. -/
def filteredAnomaly (anomaly_df : List ScoreRow) (pid : String) (s e : ℚ) : List ScoreRow :=
  anomaly_df.filter (fun r => r.product_id == pid && decide (s ≤ r.time) && decide (r.time ≤ e))

/-- Lines 123-127: the events of one device within the query window. -/
def filteredAlert (alert_df : List AlertRow) (pid : String) (s e : ℚ) : List AlertRow :=
  alert_df.filter (fun a => a.product_id == pid && decide (s ≤ a.time) && decide (a.time ≤ e))

/-- Outcome of the detail-page query: either the no-data path (lines 140-142,
`st.warning` followed by `st.stop()`) or the rendered diagnosis. -/
inductive DetailOutcome where
  | noData
  | report (d : Diagnosis)
deriving DecidableEq

/-- The detail-page query boundary (lines 112-142 plus the diagnosis of
lines 275-343): filter by device and window; an empty filtered score table
stops with a no-data warning, otherwise the diagnosis runs on the filtered
data. No branch validates the parameters themselves. -/
def detailQuery (anomaly_df : List ScoreRow) (alert_df : List AlertRow)
    (action_history_df : List ActionRow) (pid : String) (s e : ℚ) : DetailOutcome :=
  let filtered_anomaly := filteredAnomaly anomaly_df pid s e
  if filtered_anomaly = [] then
    .noData
  else
    .report (aiDiagnosis filtered_anomaly (filteredAlert alert_df pid s e)
      (action_history_df.filter (fun a => a.product_id == pid)))

/-- Modelled from the spec: the `nominal_sample_interval` the specification
requires, "derived from the series (e.g., the minimum positive gap between
consecutive timestamps for that device), not hard-coded", in minutes. The
source has no such computation; this definition exists only to compare the
spec's duration formula with the code's. -/
def specNominalIntervalMinutes (rows : List ScoreRow) : ℚ :=
  match ((rows.zip rows.tail).map (fun p => (p.2.time - p.1.time) / 60)).filter
      (fun g => decide (0 < g)) with
  | [] => 0
  | g :: gs => gs.foldl min g

/-! ### Basic facts about the scan -/

theorem detectRunsF_nil (alpha : ℚ) (fuel : Nat) : detectRunsF alpha fuel [] = [] := by
  cases fuel <;> rfl

theorem detectRunsF_eq_of_le (alpha : ℚ) :
    ∀ f₁ f₂ (l : List ScoreRow), l.length ≤ f₁ → l.length ≤ f₂ →
      detectRunsF alpha f₁ l = detectRunsF alpha f₂ l := by
  intro f₁
  induction f₁ with
  | zero =>
    intro f₂ l h₁ _
    have hl : l = [] := List.length_eq_zero.mp (Nat.le_zero.mp h₁)
    subst hl
    simp [detectRunsF_nil]
  | succ n ih =>
    intro f₂ l h₁ h₂
    match l with
    | [] => simp [detectRunsF_nil]
    | r :: rest =>
      cases f₂ with
      | zero => simp at h₂
      | succ m =>
        have hr₁ : rest.length ≤ n := Nat.le_of_succ_le_succ (by simpa using h₁)
        have hr₂ : rest.length ≤ m := Nat.le_of_succ_le_succ (by simpa using h₂)
        have hd : (rest.dropWhile (isAbove alpha)).length ≤ rest.length :=
          (List.dropWhile_sublist _).length_le
        simp only [detectRunsF]
        by_cases hab : isAbove alpha r
        · simp only [hab, if_true]
          exact congrArg _ (ih m _ (le_trans hd hr₁) (le_trans hd hr₂))
        · simp only [hab, if_false]
          exact ih m rest hr₁ hr₂

theorem detectRuns_nil (alpha : ℚ) : detectRuns alpha [] = [] := rfl

theorem detectRuns_cons_pos {alpha : ℚ} {r : ScoreRow} {rest : List ScoreRow}
    (h : isAbove alpha r = true) :
    detectRuns alpha (r :: rest) =
      (r :: rest.takeWhile (isAbove alpha)) ::
        detectRuns alpha (rest.dropWhile (isAbove alpha)) := by
  show detectRunsF alpha (r :: rest).length (r :: rest) = _
  rw [List.length_cons]
  simp only [detectRunsF, h, if_true]
  exact congrArg _ (detectRunsF_eq_of_le alpha _ _ _
    ((List.dropWhile_sublist _).length_le) le_rfl)

theorem detectRuns_cons_neg {alpha : ℚ} {r : ScoreRow} {rest : List ScoreRow}
    (h : isAbove alpha r = false) :
    detectRuns alpha (r :: rest) = detectRuns alpha rest := by
  show detectRunsF alpha (r :: rest).length (r :: rest) = _
  rw [List.length_cons]
  simp only [detectRunsF, h, if_false]
  rfl

/-- Induction principle following the scan: a below-threshold head is
skipped, an above-threshold head consumes its whole run. -/
theorem detect_induction (alpha : ℚ) (P : List ScoreRow → Prop)
    (h0 : P [])
    (hneg : ∀ r rest, isAbove alpha r = false → P rest → P (r :: rest))
    (hpos : ∀ r rest, isAbove alpha r = true →
      P (rest.dropWhile (isAbove alpha)) → P (r :: rest)) :
    ∀ rows, P rows := by
  have key : ∀ n (rows : List ScoreRow), rows.length ≤ n → P rows := by
    intro n
    induction n with
    | zero =>
      intro rows h
      have : rows = [] := List.length_eq_zero.mp (Nat.le_zero.mp h)
      exact this ▸ h0
    | succ n ih =>
      intro rows h
      match rows with
      | [] => exact h0
      | r :: rest =>
        have hrest : rest.length ≤ n := Nat.le_of_succ_le_succ (by simpa using h)
        cases hr : isAbove alpha r with
        | false => exact hneg r rest hr (ih rest hrest)
        | true =>
          exact hpos r rest hr
            (ih _ (le_trans (List.dropWhile_sublist _).length_le hrest))
  exact fun rows => key rows.length rows le_rfl

theorem head?_dropWhile_not {α : Type*} (p : α → Bool) :
    ∀ (l : List α) (x : α), (l.dropWhile p).head? = some x → p x = false := by
  intro l
  induction l with
  | nil => simp
  | cons a l ih =>
    intro x hx
    by_cases ha : p a
    · rw [List.dropWhile_cons_of_pos ha] at hx
      exact ih x hx
    · rw [List.dropWhile_cons_of_neg ha] at hx
      simp only [List.head?_cons, Option.some.injEq] at hx
      subst hx
      simpa using ha

theorem mem_run_isAbove {alpha : ℚ} :
    ∀ rows, ∀ run ∈ detectRuns alpha rows,
      run ≠ [] ∧ ∀ r ∈ run, isAbove alpha r = true := by
  refine detect_induction alpha
    (fun rows => ∀ run ∈ detectRuns alpha rows,
      run ≠ [] ∧ ∀ r ∈ run, isAbove alpha r = true) ?_ ?_ ?_
  · simp [detectRuns_nil]
  · intro r rest hneg ih run hrun
    rw [detectRuns_cons_neg hneg] at hrun
    exact ih run hrun
  · intro r rest hpos ih run hrun
    rw [detectRuns_cons_pos hpos] at hrun
    rcases List.mem_cons.mp hrun with h | h
    · subst h
      refine ⟨by simp, ?_⟩
      intro x hx
      rcases List.mem_cons.mp hx with rfl | hx
      · exact hpos
      · exact List.mem_takeWhile_imp hx
    · exact ih run h

/-- Every detected run sits inside the series with a below-threshold point
(or nothing) on each side: the runs are maximal contiguous segments. -/
theorem detectRuns_decomp {alpha : ℚ} :
    ∀ rows, ∀ run ∈ detectRuns alpha rows,
      ∃ pre post, rows = pre ++ (run ++ post) ∧
        (∀ x, pre.getLast? = some x → isAbove alpha x = false) ∧
        (∀ x, post.head? = some x → isAbove alpha x = false) := by
  refine detect_induction alpha
    (fun rows => ∀ run ∈ detectRuns alpha rows,
      ∃ pre post, rows = pre ++ (run ++ post) ∧
        (∀ x, pre.getLast? = some x → isAbove alpha x = false) ∧
        (∀ x, post.head? = some x → isAbove alpha x = false)) ?_ ?_ ?_
  · simp [detectRuns_nil]
  · intro r rest hneg ih run hrun
    rw [detectRuns_cons_neg hneg] at hrun
    obtain ⟨pre, post, heq, hpre, hpost⟩ := ih run hrun
    refine ⟨r :: pre, post, by simp [heq], ?_, hpost⟩
    intro x hx
    cases pre with
    | nil =>
      simp only [List.getLast?_singleton, Option.some.injEq] at hx
      exact hx ▸ hneg
    | cons p ps =>
      rw [List.getLast?_cons_cons] at hx
      exact hpre x hx
  · intro r rest hpos ih run hrun
    rw [detectRuns_cons_pos hpos] at hrun
    rcases List.mem_cons.mp hrun with rfl | h
    · refine ⟨[], rest.dropWhile (isAbove alpha), ?_, by simp, ?_⟩
      · simp [List.takeWhile_append_dropWhile]
      · intro x hx
        exact head?_dropWhile_not _ _ _ hx
    · obtain ⟨pre, post, heq, hpre, hpost⟩ := ih run h
      refine ⟨r :: rest.takeWhile (isAbove alpha) ++ pre, post, ?_, ?_, hpost⟩
      · conv_lhs => rw [show r :: rest =
          r :: (rest.takeWhile (isAbove alpha) ++ rest.dropWhile (isAbove alpha)) by
            rw [List.takeWhile_append_dropWhile]]
        rw [heq]
        simp
      · intro x hx
        cases hp : pre with
        | nil =>
          subst hp
          obtain ⟨hne, hall⟩ := mem_run_isAbove _ run h
          match hrun' : run with
          | [] => exact absurd rfl hne
          | y :: ys =>
            have hy : (rest.dropWhile (isAbove alpha)).head? = some y := by
              rw [heq]
              simp
            have := head?_dropWhile_not (isAbove alpha) rest y hy
            rw [hall y (by simp)] at this
            cases this
        | cons p ps =>
          subst hp
          rw [List.getLast?_append] at hx
          rw [List.getLast?_eq_getLast (p :: ps) (by simp), Option.or_some] at hx
          exact hpre _ ((List.getLast?_eq_getLast (p :: ps) (by simp)).trans
            (congrArg some (by injection hx)))

theorem mem_of_mem_detectRuns {alpha : ℚ} {rows run : List ScoreRow}
    (hrun : run ∈ detectRuns alpha rows) : ∀ x ∈ run, x ∈ rows := by
  obtain ⟨pre, post, heq, -, -⟩ := detectRuns_decomp rows run hrun
  intro x hx
  rw [heq]
  simp [hx]

theorem detectRuns_all_above {alpha : ℚ} {rows : List ScoreRow}
    (hne : rows ≠ []) (hall : ∀ r ∈ rows, isAbove alpha r = true) :
    detectRuns alpha rows = [rows] := by
  match rows with
  | r :: rest =>
    rw [detectRuns_cons_pos (hall r (by simp))]
    have htw : rest.takeWhile (isAbove alpha) = rest :=
      List.takeWhile_eq_self_iff.mpr (fun x hx => hall x (by simp [hx]))
    have hdw : rest.dropWhile (isAbove alpha) = [] :=
      List.dropWhile_eq_nil_iff.mpr (fun x hx => hall x (by simp [hx]))
    rw [htw, hdw, detectRuns_nil]

theorem mem_detectAlarms {pid : String} {alpha beta : ℚ} {alert_df : List AlertRow}
    {rows : List ScoreRow} {a : Alarm} :
    a ∈ detectAlarms pid alpha beta alert_df rows ↔
      ∃ run ∈ detectRuns alpha rows,
        beta ≤ durationMinutes run ∧ a = mkAlarm pid alert_df run := by
  unfold detectAlarms
  rw [List.mem_filterMap]
  constructor
  · rintro ⟨run, hrun, hfa⟩
    by_cases hd : durationMinutes run ≥ beta
    · rw [if_pos hd] at hfa
      exact ⟨run, hrun, hd, (Option.some.injEq _ _ ▸ hfa).symm⟩
    · rw [if_neg hd] at hfa
      cases hfa
  · rintro ⟨run, hrun, hd, rfl⟩
    exact ⟨run, hrun, by rw [if_pos hd]⟩

theorem exists_firstTime : ∀ (run : List ScoreRow), run ≠ [] →
    ∃ r ∈ run, firstTime run = r.time := by
  intro run hne
  match run with
  | r :: rs => exact ⟨r, by simp, rfl⟩

theorem exists_lastTime : ∀ (run : List ScoreRow), run ≠ [] →
    ∃ r ∈ run, lastTime run = r.time := by
  intro run
  match run with
  | [] => exact fun h => absurd rfl h
  | [r] => exact fun _ => ⟨r, by simp, rfl⟩
  | r :: s :: rs =>
    intro _
    obtain ⟨x, hx, hlast⟩ := exists_lastTime (s :: rs) (by simp)
    exact ⟨x, by simp [List.mem_cons.mp hx], by simpa [lastTime] using hlast⟩

theorem firstTime_le_lastTime {run : List ScoreRow}
    (h : run.Pairwise (fun a b => a.time ≤ b.time)) (hne : run ≠ []) :
    firstTime run ≤ lastTime run := by
  match run with
  | r :: rs =>
    obtain ⟨x, hx, hlast⟩ := exists_lastTime (r :: rs) hne
    rw [hlast]
    rcases List.mem_cons.mp hx with rfl | hx
    · exact le_rfl
    · exact (List.pairwise_cons.mp h).1 x hx

theorem le_foldl_max : ∀ (l : List ScoreRow) (m : ℚ),
    m ≤ l.foldl (fun acc x => max acc x.product_anomaly_score) m := by
  intro l
  induction l with
  | nil => exact fun m => le_rfl
  | cons r rs ih =>
    intro m
    exact le_trans (le_max_left m r.product_anomaly_score) (ih _)

theorem head_le_maxScoreOf (r : ScoreRow) (rs : List ScoreRow) :
    r.product_anomaly_score ≤ maxScoreOf (r :: rs) :=
  le_foldl_max rs r.product_anomaly_score

theorem run_sublist {alpha : ℚ} {rows run : List ScoreRow}
    (hrun : run ∈ detectRuns alpha rows) : run.Sublist rows := by
  obtain ⟨pre, post, heq, -, -⟩ := detectRuns_decomp rows run hrun
  rw [heq]
  exact ((List.sublist_append_left run post).trans (List.sublist_append_right pre _))

/-- Elements of distinct detected runs keep the series' time order. -/
theorem detectRuns_pairwise {alpha : ℚ} :
    ∀ rows : List ScoreRow, rows.Pairwise (fun a b => a.time < b.time) →
      (detectRuns alpha rows).Pairwise
        (fun ra rb => ∀ x ∈ ra, ∀ y ∈ rb, x.time < y.time) := by
  refine detect_induction alpha
    (fun rows => rows.Pairwise (fun a b => a.time < b.time) →
      (detectRuns alpha rows).Pairwise
        (fun ra rb => ∀ x ∈ ra, ∀ y ∈ rb, x.time < y.time)) ?_ ?_ ?_
  · intro _
    simp [detectRuns_nil]
  · intro r rest hneg ih h
    rw [detectRuns_cons_neg hneg]
    exact ih h.of_cons
  · intro r rest hpos ih h
    rw [detectRuns_cons_pos hpos]
    obtain ⟨hr, hrest⟩ := List.pairwise_cons.mp h
    refine List.pairwise_cons.mpr
      ⟨?_, ih (List.Pairwise.sublist (List.dropWhile_sublist _) hrest)⟩
    intro run' hrun' x hx y hy
    have hyd : y ∈ rest.dropWhile (isAbove alpha) := mem_of_mem_detectRuns hrun' y hy
    rcases List.mem_cons.mp hx with rfl | hx
    · exact hr y ((List.dropWhile_sublist (isAbove alpha)).subset hyd)
    · have hsplit : rest.Pairwise (fun a b => a.time < b.time) := hrest
      rw [← List.takeWhile_append_dropWhile (p := isAbove alpha) (l := rest)] at hsplit
      exact (List.pairwise_append.mp hsplit).2.2 x hx y hyd

theorem pairwise_filterMap_of {α β : Type*} (f : α → Option β) {R : α → α → Prop}
    {S : β → β → Prop} :
    ∀ {l : List α}, l.Pairwise R →
      (∀ a b, R a b → ∀ x y, f a = some x → f b = some y → S x y) →
      (l.filterMap f).Pairwise S := by
  intro l hl hRS
  induction hl with
  | nil => simp
  | @cons a l ha hl ih =>
    cases hfa : f a with
    | none =>
      rw [List.filterMap_cons_none hfa]
      exact ih
    | some x =>
      rw [List.filterMap_cons_some hfa]
      refine List.pairwise_cons.mpr ⟨?_, ih⟩
      intro y hy
      obtain ⟨b, hb, hfb⟩ := List.mem_filterMap.mp hy
      exact hRS a b (ha b hb) x y hfa hfb

/-- Consecutive alarms of one scan are strictly ordered in time. -/
theorem detectAlarms_pairwise {pid : String} {alpha beta : ℚ}
    {alert_df : List AlertRow} {rows : List ScoreRow}
    (h : rows.Pairwise (fun a b => a.time < b.time)) :
    (detectAlarms pid alpha beta alert_df rows).Pairwise
      (fun a b => a.end_time < b.start_time) := by
  have hruns' : (detectRuns alpha rows).Pairwise
      (fun ra rb => ra ≠ [] ∧ rb ≠ [] ∧ ∀ x ∈ ra, ∀ y ∈ rb, x.time < y.time) := by
    refine List.Pairwise.imp_of_mem ?_ (detectRuns_pairwise rows h)
    intro ra rb hra hrb hcross
    exact ⟨(mem_run_isAbove rows ra hra).1, (mem_run_isAbove rows rb hrb).1, hcross⟩
  unfold detectAlarms
  refine pairwise_filterMap_of _ hruns' ?_
  rintro ra rb ⟨hne_a, hne_b, hcross⟩ x y hx hy
  have hxa : x = mkAlarm pid alert_df ra := by
    by_cases hd : durationMinutes ra ≥ beta
    · rw [if_pos hd] at hx
      exact (Option.some.injEq _ _ ▸ hx).symm
    · rw [if_neg hd] at hx
      cases hx
  have hyb : y = mkAlarm pid alert_df rb := by
    by_cases hd : durationMinutes rb ≥ beta
    · rw [if_pos hd] at hy
      exact (Option.some.injEq _ _ ▸ hy).symm
    · rw [if_neg hd] at hy
      cases hy
  obtain ⟨xa, hxa_mem, hxa_last⟩ := exists_lastTime ra hne_a
  obtain ⟨yb, hyb_mem, hyb_first⟩ := exists_firstTime rb hne_b
  rw [hxa, hyb]
  show lastTime ra < firstTime rb
  rw [hxa_last, hyb_first]
  exact hcross xa hxa_mem yb hyb_mem

theorem pointSensorAnomalies_time (r : ScoreRow) :
    ∀ s ∈ pointSensorAnomalies r, s.1 = r.time := by
  intro s hs
  unfold pointSensorAnomalies at hs
  cases hm : r.sensor_anomaly_score with
  | none => rw [hm] at hs; cases hs
  | some m =>
    rw [hm] at hs
    obtain ⟨p, -, hp⟩ := List.mem_map.mp hs
    rw [← hp]

theorem sensorAnomalies_pairwise {run : List ScoreRow}
    (h : run.Pairwise (fun a b => a.time ≤ b.time)) :
    (sensorAnomaliesOf run).Pairwise (fun s t => s.1 ≤ t.1) := by
  induction run with
  | nil => simp [sensorAnomaliesOf]
  | cons r rs ih =>
    rw [sensorAnomaliesOf, List.flatMap_cons]
    obtain ⟨hr, hrs⟩ := List.pairwise_cons.mp h
    rw [List.pairwise_append]
    refine ⟨?_, ih hrs, ?_⟩
    · refine List.pairwise_of_forall_mem_list ?_
      intro x hx y hy
      rw [pointSensorAnomalies_time r x hx, pointSensorAnomalies_time r y hy]
    · intro x hx y hy
      obtain ⟨r', hr', hy'⟩ := List.mem_flatMap.mp hy
      rw [pointSensorAnomalies_time r x hx, pointSensorAnomalies_time r' y hy']
      exact hr r' hr'

theorem mem_sensorAnomaliesOf {run : List ScoreRow} {t : ℚ} {n : String} {sc : ℚ} :
    (t, n, sc) ∈ sensorAnomaliesOf run ↔
      ∃ r ∈ run, r.time = t ∧
        ∃ m, r.sensor_anomaly_score = some m ∧ (n, sc) ∈ m ∧ 1 ≤ sc := by
  unfold sensorAnomaliesOf
  rw [List.mem_flatMap]
  constructor
  · rintro ⟨r, hr, hmem⟩
    unfold pointSensorAnomalies at hmem
    cases hm : r.sensor_anomaly_score with
    | none => rw [hm] at hmem; cases hmem
    | some m =>
      rw [hm] at hmem
      obtain ⟨p, hp, hpe⟩ := List.mem_map.mp hmem
      obtain ⟨hpm, hpge⟩ := List.mem_filter.mp hp
      obtain ⟨ht, hn, hsc⟩ : r.time = t ∧ p.1 = n ∧ p.2 = sc := by
        refine ⟨congrArg Prod.fst hpe, ?_, ?_⟩
        · exact congrArg (fun q => q.2.1) hpe
        · exact congrArg (fun q => q.2.2) hpe
      refine ⟨r, hr, ht, m, hm, ?_, ?_⟩
      · rw [← hn, ← hsc]
        exact hpm
      · rw [← hsc]
        exact of_decide_eq_true hpge
  · rintro ⟨r, hr, ht, m, hm, hmem, hge⟩
    refine ⟨r, hr, ?_⟩
    unfold pointSensorAnomalies
    rw [hm]
    refine List.mem_map.mpr ⟨(n, sc), List.mem_filter.mpr ⟨hmem, decide_eq_true hge⟩, ?_⟩
    rw [ht]

theorem mem_periodAlerts {alert_df : List AlertRow} {pid : String} {s e : ℚ}
    {a : AlertRow} :
    a ∈ periodAlerts alert_df pid s e ↔
      a ∈ alert_df ∧ a.product_id = pid ∧ s ≤ a.time ∧ a.time ≤ e := by
  unfold periodAlerts
  rw [List.mem_filter]
  simp [and_assoc]

/-! ### Concrete fixtures used by the witnesses -/

/-- A 2-minute-interval fixture point: above threshold 1, with a parsed
sensor map. -/
def p0 : ScoreRow := ⟨0, "P1", some [("temperature-sensor", 2)], 2⟩

/-- Second fixture point, above threshold, unparseable sensor map. -/
def p1 : ScoreRow := ⟨120, "P1", none, 3⟩

/-- Third fixture point, below threshold. -/
def p2 : ScoreRow := ⟨240, "P1", some [("snr-db", 1)], 0⟩

/-- Fixture series: one above-threshold run of two points, then a below
point. -/
def wSeries : List ScoreRow := [p0, p1, p2]

/-- The run the scan detects in `wSeries` at threshold 1. -/
def wRun : List ScoreRow := [p0, p1]

/-- Five-minute-interval fixture series (300-second gap). -/
def qSeries : List ScoreRow := [⟨0, "P1", some [], 2⟩, ⟨300, "P1", some [], 2⟩]

/-! ### C1 — the duration formula -/

/-- C1 is false on the code: on a series sampled every 5 minutes the detector
still adds the hard-coded 2 minutes (line 105's `+ 2`), so the emitted
duration is 7 minutes, not the `span + nominal_sample_interval = 10` minutes
the specification's derived-interval formula gives. -/
theorem duration_formula_counterexample :
    detectAlarms "P1" 1 2 [] qSeries =
      [{ product_id := "P1", start_time := 0, end_time := 300,
         duration_minutes := 7, max_score := 2,
         sensor_anomalies := [], alerts := [] }] ∧
    specNominalIntervalMinutes qSeries = 5 ∧
    (7 : ℚ) ≠ (300 - 0) / 60 + specNominalIntervalMinutes qSeries := by
  have hruns : detectRuns 1 qSeries = [qSeries] := by decide
  have hdur : durationMinutes qSeries = 7 := by
    norm_num [durationMinutes, lastTime, firstTime, qSeries]
  have hspec : specNominalIntervalMinutes qSeries = 5 := by
    norm_num [specNominalIntervalMinutes, qSeries, List.filter]
  refine ⟨?_, hspec, ?_⟩
  · unfold detectAlarms
    rw [hruns, List.filterMap_cons_some (by rw [if_pos (by rw [hdur]; norm_num)]),
      List.filterMap_nil]
    refine congrArg (fun x => [x]) ?_
    have h1 : firstTime qSeries = 0 := by norm_num [firstTime, qSeries]
    have h2 : lastTime qSeries = 300 := by norm_num [lastTime, qSeries]
    have h3 : maxScoreOf qSeries = 2 := by norm_num [maxScoreOf, qSeries]
    have h4 : sensorAnomaliesOf qSeries = [] := by
      norm_num [sensorAnomaliesOf, pointSensorAnomalies, qSeries]
    unfold mkAlarm
    rw [h1, h2, hdur, h3, h4]
    rfl
  · rw [hspec]
    norm_num

/-- C1 amended: for every emitted alarm the duration is
`(end_time - start_time) / 60 + 2` minutes — the span between the first and
last above-threshold timestamps plus a nominal sample interval that is
hard-coded to 2 minutes, not derived from the series. -/
theorem duration_adds_two_minutes (pid : String) (alpha beta : ℚ)
    (alert_df : List AlertRow) (rows : List ScoreRow) :
    ∀ a ∈ detectAlarms pid alpha beta alert_df rows,
      a.duration_minutes = (a.end_time - a.start_time) / 60 + 2 := by
  intro a ha
  obtain ⟨run, hrun, hd, rfl⟩ := mem_detectAlarms.mp ha
  rfl

/-- Witness for the amended C1 at the two-point five-minute fixture. -/
theorem duration_adds_two_minutes_witness :
    (mkAlarm "P1" [] qSeries).duration_minutes =
      ((mkAlarm "P1" [] qSeries).end_time - (mkAlarm "P1" [] qSeries).start_time) / 60 + 2 :=
  duration_adds_two_minutes "P1" 1 2 [] qSeries (mkAlarm "P1" [] qSeries)
    (mem_detectAlarms.mpr ⟨qSeries, by decide,
      by norm_num [durationMinutes, lastTime, firstTime, qSeries], rfl⟩)

/-! ### C3 — strict threshold, inclusive minimum duration -/

/-- C3: a point is counted as above the threshold only for a strictly
greater score (a point exactly at the threshold never joins any run), and a
detected run is emitted exactly when its duration reaches `beta`
(inclusive); in particular every emitted alarm has duration at least `beta`,
so every omitted run's duration is below it. -/
theorem threshold_strict_min_duration (pid : String) (alpha beta : ℚ)
    (alert_df : List AlertRow) (rows : List ScoreRow) :
    (∀ r : ScoreRow, r.product_anomaly_score = alpha →
      ∀ run ∈ detectRuns alpha rows, r ∉ run) ∧
    (∀ run ∈ detectRuns alpha rows, ∀ r ∈ run, alpha < r.product_anomaly_score) ∧
    (∀ run ∈ detectRuns alpha rows,
      (mkAlarm pid alert_df run ∈ detectAlarms pid alpha beta alert_df rows ↔
        beta ≤ durationMinutes run)) ∧
    (∀ a ∈ detectAlarms pid alpha beta alert_df rows, beta ≤ a.duration_minutes) := by
  have habove : ∀ run ∈ detectRuns alpha rows, ∀ r ∈ run,
      alpha < r.product_anomaly_score :=
    fun run hrun r hr => of_decide_eq_true ((mem_run_isAbove rows run hrun).2 r hr)
  refine ⟨?_, habove, ?_, ?_⟩
  · intro r hr run hrun hmem
    exact absurd (hr ▸ habove run hrun r hmem) (lt_irrefl alpha)
  · intro run hrun
    constructor
    · intro hmem
      obtain ⟨run', hrun', hd', heq⟩ := mem_detectAlarms.mp hmem
      have : durationMinutes run = durationMinutes run' :=
        congrArg Alarm.duration_minutes heq
      exact this ▸ hd'
    · intro hd
      exact mem_detectAlarms.mpr ⟨run, hrun, hd, rfl⟩
  · intro a ha
    obtain ⟨run, hrun, hd, rfl⟩ := mem_detectAlarms.mp ha
    exact hd

/-- Witness for C3: the fixture run is emitted because its 4-minute duration
meets `beta = 4`. -/
theorem threshold_strict_min_duration_witness :
    mkAlarm "P1" [] wRun ∈ detectAlarms "P1" 1 4 [] wSeries :=
  ((threshold_strict_min_duration "P1" 1 4 [] wSeries).2.2.1 wRun (by decide)).mpr
    (by norm_num [durationMinutes, lastTime, firstTime, wRun, p0, p1])

/-! ### C4 — maximal runs, non-overlap, ascending order -/

/-- C4: every detected run is a nonempty maximal contiguous above-threshold
segment of the series (the neighbouring points, when they exist, are at or
below the threshold), an all-above series forms a single run, and the
alarms of one scan are pairwise ordered with `end_time` strictly before the
next `start_time`. -/
theorem runs_maximal_ordered (pid : String) (alpha beta : ℚ)
    (alert_df : List AlertRow) (rows : List ScoreRow)
    (hrows : rows.Pairwise (fun a b => a.time < b.time)) :
    (∀ run ∈ detectRuns alpha rows,
      run ≠ [] ∧ (∀ r ∈ run, alpha < r.product_anomaly_score) ∧
      ∃ pre post, rows = pre ++ (run ++ post) ∧
        (∀ x, pre.getLast? = some x → ¬ alpha < x.product_anomaly_score) ∧
        (∀ x, post.head? = some x → ¬ alpha < x.product_anomaly_score)) ∧
    ((∀ r ∈ rows, alpha < r.product_anomaly_score) → rows ≠ [] →
      detectRuns alpha rows = [rows]) ∧
    (detectAlarms pid alpha beta alert_df rows).Pairwise
      (fun a b => a.end_time < b.start_time) := by
  refine ⟨?_, ?_, detectAlarms_pairwise hrows⟩
  · intro run hrun
    obtain ⟨hne, hab⟩ := mem_run_isAbove rows run hrun
    obtain ⟨pre, post, heq, hpre, hpost⟩ := detectRuns_decomp rows run hrun
    exact ⟨hne, fun r hr => of_decide_eq_true (hab r hr), pre, post, heq,
      fun x hx => of_decide_eq_false (hpre x hx),
      fun x hx => of_decide_eq_false (hpost x hx)⟩
  · intro hall hne
    exact detectRuns_all_above hne (fun r hr => decide_eq_true (hall r hr))

/-- Witness for C4: a series whose points are all above the threshold is a
single run. -/
theorem runs_maximal_ordered_witness :
    detectRuns 1 wRun = [wRun] :=
  (runs_maximal_ordered "P1" 1 4 [] wRun (by decide)).2.1 (by decide) (by decide)

/-! ### C9 — invariants of every emitted incident -/

/-- C9: every alarm comes from a nonempty run whose points all score
strictly above the threshold; consequently its `start_time` is at most its
`end_time` and its `max_score` strictly exceeds the threshold. -/
theorem incident_invariants (pid : String) (alpha beta : ℚ)
    (alert_df : List AlertRow) (rows : List ScoreRow)
    (hrows : rows.Pairwise (fun a b => a.time ≤ b.time)) :
    ∀ a ∈ detectAlarms pid alpha beta alert_df rows,
      ∃ run ∈ detectRuns alpha rows, a = mkAlarm pid alert_df run ∧ run ≠ [] ∧
        (∀ r ∈ run, alpha < r.product_anomaly_score) ∧
        a.start_time ≤ a.end_time ∧ alpha < a.max_score := by
  intro a ha
  obtain ⟨run, hrun, hd, rfl⟩ := mem_detectAlarms.mp ha
  obtain ⟨hne, hab⟩ := mem_run_isAbove rows run hrun
  have hrun_pw : run.Pairwise (fun a b => a.time ≤ b.time) :=
    List.Pairwise.sublist (run_sublist hrun) hrows
  refine ⟨run, hrun, rfl, hne, fun r hr => of_decide_eq_true (hab r hr), ?_, ?_⟩
  · exact firstTime_le_lastTime hrun_pw hne
  · show alpha < maxScoreOf run
    match run, hne, hab with
    | r :: rs, _, hab =>
      exact lt_of_lt_of_le (of_decide_eq_true (hab r (by simp)))
        (head_le_maxScoreOf r rs)

/-- Witness for C9 at the fixture series and its emitted alarm. -/
theorem incident_invariants_witness :
    ∃ run ∈ detectRuns 1 wSeries, mkAlarm "P1" [] wRun = mkAlarm "P1" [] run ∧
      run ≠ [] ∧ (∀ r ∈ run, (1 : ℚ) < r.product_anomaly_score) ∧
      (mkAlarm "P1" [] wRun).start_time ≤ (mkAlarm "P1" [] wRun).end_time ∧
      (1 : ℚ) < (mkAlarm "P1" [] wRun).max_score :=
  incident_invariants "P1" 1 4 [] wSeries (by decide) (mkAlarm "P1" [] wRun)
    (mem_detectAlarms.mpr ⟨wRun, by decide,
      by norm_num [durationMinutes, lastTime, firstTime, wRun, p0, p1], rfl⟩)

/-! ### C8 — empty and unknown inputs -/

/-- C8: an empty score series yields no alarms; an empty event table yields
alarms with no correlated events; a device absent from the score table
yields an empty alarm list — never an error. -/
theorem empty_inputs_empty_results (pid : String) (alpha beta : ℚ)
    (alert_df : List AlertRow) (anomaly_df rows : List ScoreRow) :
    detectAlarms pid alpha beta alert_df [] = [] ∧
    (∀ a ∈ detectAlarms pid alpha beta [] rows, a.alerts = []) ∧
    ((∀ r ∈ anomaly_df, r.product_id ≠ pid) →
      processProduct anomaly_df alert_df pid alpha beta = []) := by
  refine ⟨rfl, ?_, ?_⟩
  · intro a ha
    obtain ⟨run, hrun, hd, rfl⟩ := mem_detectAlarms.mp ha
    rfl
  · intro h
    unfold processProduct
    have hfil : anomaly_df.filter (fun r => r.product_id == pid) = [] := by
      rw [List.filter_eq_nil_iff]
      intro r hr
      simpa using h r hr
    rw [hfil]
    rfl

/-- Witness for C8: a device id matching no row yields an empty result. -/
theorem empty_inputs_empty_results_witness :
    processProduct wSeries [] "P2" 1 2 = [] :=
  (empty_inputs_empty_results "P2" 1 2 [] wSeries []).2.2 (by decide)

/-! ### C6 — correlated evidence of a span -/

/-- C6: for every detected run, the correlated events are exactly the
device's events whose timestamps lie in `[start_time, end_time]` with both
endpoints included, and the sensor anomalies are exactly the
`(time, sensor, score)` triples of the span's points whose parsed score is
at least 1.0 (inclusive), listed in timestamp-ascending order. -/
theorem correlated_evidence (pid : String) (alpha : ℚ) (alert_df : List AlertRow)
    (rows : List ScoreRow) (hrows : rows.Pairwise (fun a b => a.time ≤ b.time)) :
    ∀ run ∈ detectRuns alpha rows,
      (∀ e : AlertRow, e ∈ (mkAlarm pid alert_df run).alerts ↔
        (e ∈ alert_df ∧ e.product_id = pid ∧
          (mkAlarm pid alert_df run).start_time ≤ e.time ∧
          e.time ≤ (mkAlarm pid alert_df run).end_time)) ∧
      (∀ (t : ℚ) (n : String) (sc : ℚ),
        (t, n, sc) ∈ (mkAlarm pid alert_df run).sensor_anomalies ↔
          ∃ r ∈ run, r.time = t ∧
            ∃ m, r.sensor_anomaly_score = some m ∧ (n, sc) ∈ m ∧ 1 ≤ sc) ∧
      ((mkAlarm pid alert_df run).sensor_anomalies).Pairwise
        (fun s t => s.1 ≤ t.1) := by
  intro run hrun
  refine ⟨?_, ?_, ?_⟩
  · intro e
    exact mem_periodAlerts
  · intro t n sc
    exact mem_sensorAnomaliesOf
  · exact sensorAnomalies_pairwise (List.Pairwise.sublist (run_sublist hrun) hrows)

/-- Witness for C6: an event timestamped exactly at the span's start is
correlated (boundary inclusion). -/
theorem correlated_evidence_witness :
    (⟨0, "P1", "과열"⟩ : AlertRow) ∈
      (mkAlarm "P1" [⟨0, "P1", "과열"⟩] wRun).alerts :=
  (((correlated_evidence "P1" 1 [⟨0, "P1", "과열"⟩] wSeries (by decide))
      wRun (by decide)).1 ⟨0, "P1", "과열"⟩).mpr
    ⟨by decide, rfl, by decide, by decide⟩

/-! ### C7 — invalid query parameters -/

/-- C7 is false on the code: the detail page never raises a validation
error. A query over present data whose end lies before its start takes the
very same no-data path (warning plus stop) as a query for a device that has
no rows at all — invalid parameters are absorbed into the empty-result
outcome, not rejected. -/
theorem invalid_range_counterexample :
    detailQuery qSeries [] [] "P1" 100 0 = DetailOutcome.noData ∧
    detailQuery qSeries [] [] "P2" 0 400 = DetailOutcome.noData := by
  constructor <;> decide

/-- C7 amended: a window with `end_time` before `start_time` is not rejected;
the filter is empty by construction and the query yields the no-data
outcome, indistinguishable from an empty result. (Negative `alpha` and
non-positive `beta` cannot reach the detector because the sidebar sliders
bound them to `[0.0, 3.5]` and `[2, 30]`.) -/
theorem invalid_range_yields_no_data (anomaly_df : List ScoreRow)
    (alert_df : List AlertRow) (action_history_df : List ActionRow)
    (pid : String) (s e : ℚ) (h : e < s) :
    detailQuery anomaly_df alert_df action_history_df pid s e =
      DetailOutcome.noData := by
  have hfil : filteredAnomaly anomaly_df pid s e = [] := by
    unfold filteredAnomaly
    rw [List.filter_eq_nil_iff]
    intro r hr
    simp only [Bool.and_eq_true, decide_eq_true_eq, not_and]
    rintro ⟨-, h1⟩ h2
    exact absurd (le_trans h1 h2) (not_le.mpr h)
  simp [detailQuery, hfil]

/-- Witness for the amended C7 at a concrete inverted window. -/
theorem invalid_range_yields_no_data_witness :
    detailQuery wSeries [] [] "P1" 50 10 = DetailOutcome.noData :=
  invalid_range_yields_no_data wSeries [] [] "P1" 50 10 (by norm_num)

/-! ### Diagnosis helper lemmas -/

theorem mem_uniqAux : ∀ (seen l : List String) (x : String),
    x ∈ uniqAux seen l ↔ x ∈ l ∧ x ∉ seen := by
  intro seen l
  induction l generalizing seen with
  | nil => intro x; simp [uniqAux]
  | cons a l ih =>
    intro x
    unfold uniqAux
    by_cases ha : a ∈ seen
    · rw [if_pos ha, ih]
      constructor
      · rintro ⟨h1, h2⟩
        exact ⟨List.mem_cons_of_mem a h1, h2⟩
      · rintro ⟨h1, h2⟩
        rcases List.mem_cons.mp h1 with rfl | h1
        · exact absurd ha h2
        · exact ⟨h1, h2⟩
    · rw [if_neg ha]
      constructor
      · intro hmem
        rcases List.mem_cons.mp hmem with rfl | hmem
        · exact ⟨List.mem_cons_self _ _, ha⟩
        · obtain ⟨hl, hnotin⟩ := (ih (a :: seen) x).mp hmem
          exact ⟨List.mem_cons_of_mem a hl,
            fun hs => hnotin (List.mem_cons_of_mem a hs)⟩
      · rintro ⟨h1, h2⟩
        rcases List.mem_cons.mp h1 with rfl | h1
        · exact List.mem_cons_self _ _
        · by_cases hxa : x = a
          · subst hxa
            exact List.mem_cons_self _ _
          · refine List.mem_cons_of_mem a ((ih (a :: seen) x).mpr ⟨h1, ?_⟩)
            intro hs
            rcases List.mem_cons.mp hs with h | h
            · exact hxa h
            · exact h2 h

theorem mem_uniqueIdentifiers {alerts : List AlertRow} {s : String} :
    s ∈ uniqueIdentifiers alerts ↔ ∃ e ∈ alerts, e.identifier = s := by
  unfold uniqueIdentifiers
  rw [mem_uniqAux]
  simp

theorem aiDiagnosis_high (points : List ScoreRow) (alerts : List AlertRow)
    (actions : List ActionRow) (h : maxScoreOf points ≥ 2.5) :
    aiDiagnosis points alerts actions =
      { severity := .high
        recommendations :=
          (if tempSensorCheck (highSensorList points) then [highRec1] else []) ++
          (if "과열" ∈ uniqueIdentifiers alerts ∨
              "오버 히팅" ∈ uniqueIdentifiers alerts then [highRec2] else []) ++
          (if recentActions actions ≠ [] ∧
              (recentActions actions).any
                (fun a => strContains a.treatment "온도센서교체") then
            [highRec3] else []) ++ [highRec4] } := by
  simp only [aiDiagnosis]
  rw [if_pos h]

theorem aiDiagnosis_medium (points : List ScoreRow) (alerts : List AlertRow)
    (actions : List ActionRow) (h1 : ¬ maxScoreOf points ≥ 2.5)
    (h2 : maxScoreOf points ≥ 1.5) :
    aiDiagnosis points alerts actions =
      { severity := .medium
        recommendations :=
          [medRec1] ++ (if highSensorList points ≠ [] then [medRec2] else []) ++
            [medRec3] } := by
  simp only [aiDiagnosis]
  rw [if_neg h1, if_pos h2]

theorem aiDiagnosis_low (points : List ScoreRow) (alerts : List AlertRow)
    (actions : List ActionRow) (h1 : ¬ maxScoreOf points ≥ 2.5)
    (h2 : ¬ maxScoreOf points ≥ 1.5) :
    aiDiagnosis points alerts actions =
      { severity := .low, recommendations := [lowRec1, lowRec2] } := by
  simp only [aiDiagnosis]
  rw [if_neg h1, if_neg h2]

theorem mem_cond₁ {c₁ c₂ c₃ : Prop} [Decidable c₁] [Decidable c₂] [Decidable c₃]
    {r₁ r₂ r₃ r₄ : String} (h2 : r₁ ≠ r₂) (h3 : r₁ ≠ r₃) (h4 : r₁ ≠ r₄) :
    (r₁ ∈ (if c₁ then [r₁] else []) ++ (if c₂ then [r₂] else []) ++
      (if c₃ then [r₃] else []) ++ [r₄]) ↔ c₁ := by
  by_cases hc1 : c₁ <;> by_cases hc2 : c₂ <;> by_cases hc3 : c₃ <;>
    simp [hc1, hc2, hc3, h2, h3, h4]

theorem mem_cond₂ {c₁ c₂ c₃ : Prop} [Decidable c₁] [Decidable c₂] [Decidable c₃]
    {r₁ r₂ r₃ r₄ : String} (h1 : r₂ ≠ r₁) (h3 : r₂ ≠ r₃) (h4 : r₂ ≠ r₄) :
    (r₂ ∈ (if c₁ then [r₁] else []) ++ (if c₂ then [r₂] else []) ++
      (if c₃ then [r₃] else []) ++ [r₄]) ↔ c₂ := by
  by_cases hc1 : c₁ <;> by_cases hc2 : c₂ <;> by_cases hc3 : c₃ <;>
    simp [hc1, hc2, hc3, h1, h3, h4]

theorem mem_cond₃ {c₁ c₂ c₃ : Prop} [Decidable c₁] [Decidable c₂] [Decidable c₃]
    {r₁ r₂ r₃ r₄ : String} (h1 : r₃ ≠ r₁) (h2 : r₃ ≠ r₂) (h4 : r₃ ≠ r₄) :
    (r₃ ∈ (if c₁ then [r₁] else []) ++ (if c₂ then [r₂] else []) ++
      (if c₃ then [r₃] else []) ++ [r₄]) ↔ c₃ := by
  by_cases hc1 : c₁ <;> by_cases hc2 : c₂ <;> by_cases hc3 : c₃ <;>
    simp [hc1, hc2, hc3, h1, h2, h4]

/-! ### C2 — the diagnosis decision table -/

/-- C2: severity is High exactly when `max_score >= 2.5`, Medium exactly on
`[1.5, 2.5)`, Low exactly below 1.5; and under High severity the
temperature-sensor recommendation appears exactly when a sensor whose name
contains "temperature-sensor" occurs among the collected sensor anomalies,
the cooling recommendation exactly when a correlated event is identified
"과열" or "오버 히팅", the historical-fix recommendation exactly when one of
the three most recent maintenance actions (by descending `action_date`)
has a treatment containing "온도센서교체"; the recommendations follow the
fixed table order. -/
theorem diagnosis_decision_table (points : List ScoreRow) (alerts : List AlertRow)
    (actions : List ActionRow) :
    ((aiDiagnosis points alerts actions).severity = .high ↔
       2.5 ≤ maxScoreOf points) ∧
    ((aiDiagnosis points alerts actions).severity = .medium ↔
       1.5 ≤ maxScoreOf points ∧ maxScoreOf points < 2.5) ∧
    ((aiDiagnosis points alerts actions).severity = .low ↔
       maxScoreOf points < 1.5) ∧
    (2.5 ≤ maxScoreOf points →
      ((highRec1 ∈ (aiDiagnosis points alerts actions).recommendations ↔
          ∃ p ∈ highSensorList points,
            strContains p.1 "temperature-sensor" = true) ∧
       (highRec2 ∈ (aiDiagnosis points alerts actions).recommendations ↔
          ∃ e ∈ alerts, e.identifier = "과열" ∨ e.identifier = "오버 히팅") ∧
       (highRec3 ∈ (aiDiagnosis points alerts actions).recommendations ↔
          ∃ act ∈ recentActions actions,
            strContains act.treatment "온도센서교체" = true) ∧
       ((aiDiagnosis points alerts actions).recommendations).Sublist
         [highRec1, highRec2, highRec3, highRec4])) := by
  by_cases h25 : maxScoreOf points ≥ 2.5
  · rw [aiDiagnosis_high points alerts actions h25]
    refine ⟨by simpa using h25, ?_, ?_, ?_⟩
    · exact iff_of_false (by simp)
        (fun hc => absurd h25 (not_le.mpr hc.2))
    · exact iff_of_false (by simp)
        (not_lt.mpr (le_trans (by norm_num) h25))
    · intro _
      refine ⟨?_, ?_, ?_, ?_⟩
      · rw [mem_cond₁ (by decide) (by decide) (by decide)]
        simp only [tempSensorCheck]
        exact List.any_eq_true
      · rw [mem_cond₂ (by decide) (by decide) (by decide)]
        constructor
        · rintro (h | h) <;>
            obtain ⟨e, he, hid⟩ := mem_uniqueIdentifiers.mp h

          · exact ⟨e, he, Or.inl hid⟩
          · exact ⟨e, he, Or.inr hid⟩
        · rintro ⟨e, he, h | h⟩
          · exact Or.inl (mem_uniqueIdentifiers.mpr ⟨e, he, h⟩)
          · exact Or.inr (mem_uniqueIdentifiers.mpr ⟨e, he, h⟩)
      · rw [mem_cond₃ (by decide) (by decide) (by decide)]
        constructor
        · rintro ⟨-, hany⟩
          exact List.any_eq_true.mp hany
        · intro h
          refine ⟨?_, List.any_eq_true.mpr h⟩
          obtain ⟨act, hact, -⟩ := h
          exact List.ne_nil_of_mem hact
      · have hA : (if tempSensorCheck (highSensorList points) then [highRec1]
            else []).Sublist [highRec1] := by
          split
          · exact List.Sublist.refl _
          · exact List.nil_sublist _
        have hB : (if "과열" ∈ uniqueIdentifiers alerts ∨
            "오버 히팅" ∈ uniqueIdentifiers alerts then [highRec2]
            else []).Sublist [highRec2] := by
          split
          · exact List.Sublist.refl _
          · exact List.nil_sublist _
        have hC : (if recentActions actions ≠ [] ∧
            (recentActions actions).any
              (fun a => strContains a.treatment "온도센서교체") then [highRec3]
            else []).Sublist [highRec3] := by
          split
          · exact List.Sublist.refl _
          · exact List.nil_sublist _
        simpa using ((hA.append hB).append hC).append
          (List.Sublist.refl [highRec4])
  · by_cases h15 : maxScoreOf points ≥ 1.5
    · rw [aiDiagnosis_medium points alerts actions h25 h15]
      refine ⟨iff_of_false (by simp) h25, ?_, ?_, fun h => absurd h h25⟩
      · exact iff_of_true rfl ⟨h15, not_le.mp h25⟩
      · exact iff_of_false (by simp) (not_lt.mpr h15)
    · rw [aiDiagnosis_low points alerts actions h25 h15]
      refine ⟨iff_of_false (by simp) h25, ?_, ?_, fun h => absurd h h25⟩
      · exact iff_of_false (by simp) (fun hc => absurd hc.1 h15)
      · exact iff_of_true rfl (not_le.mp h15)

/-- Fixture point for the diagnosis witnesses, score 3 with a
temperature-sensor anomaly. -/
def sE : ScoreRow := ⟨0, "P1", some [("temperature-sensor", 3)], 3⟩

/-- Fixture events for the diagnosis witnesses. -/
def wAlerts : List AlertRow := [⟨0, "P1", "과열"⟩]

/-- Fixture maintenance history for the diagnosis witnesses. -/
def wActions : List ActionRow := [⟨0, "P1", "과열", "원인", "온도센서교체"⟩]

/-- Witness for C2: in the high band the cooling recommendation follows from
the correlated 과열 event. -/
theorem diagnosis_decision_table_witness :
    highRec2 ∈ (aiDiagnosis [sE] wAlerts wActions).recommendations :=
  (((diagnosis_decision_table [sE] wAlerts wActions).2.2.2
      (by norm_num [maxScoreOf, sE])).2.1).mpr
    ⟨⟨0, "P1", "과열"⟩, by decide, Or.inl rfl⟩

/-! ### C10 — the physical-inspection recommendation -/

/-- C10: whenever the maximum score reaches 2.5 the physical-inspection
recommendation is present unconditionally, and it comes after every other
recommendation of the High branch. -/
theorem physical_inspection_unconditional (points : List ScoreRow)
    (alerts : List AlertRow) (actions : List ActionRow)
    (h : 2.5 ≤ maxScoreOf points) :
    ∃ l, (aiDiagnosis points alerts actions).recommendations = l ++ [highRec4] ∧
      highRec4 ∉ l := by
  rw [aiDiagnosis_high points alerts actions h]
  refine ⟨(if tempSensorCheck (highSensorList points) then [highRec1] else []) ++
    (if "과열" ∈ uniqueIdentifiers alerts ∨
        "오버 히팅" ∈ uniqueIdentifiers alerts then [highRec2] else []) ++
    (if recentActions actions ≠ [] ∧
        (recentActions actions).any
          (fun a => strContains a.treatment "온도센서교체") then
      [highRec3] else []), by simp [List.append_assoc], ?_⟩
  intro hmem
  rcases List.mem_append.mp hmem with hmem | hmem
  · rcases List.mem_append.mp hmem with hmem | hmem
    · split at hmem
      · simp only [List.mem_singleton] at hmem
        exact absurd hmem (by decide)
      · cases hmem
    · split at hmem
      · simp only [List.mem_singleton] at hmem
        exact absurd hmem (by decide)
      · cases hmem
  · split at hmem
    · simp only [List.mem_singleton] at hmem
      exact absurd hmem (by decide)
    · cases hmem

/-- Witness for C10 at the high-severity fixture. -/
theorem physical_inspection_unconditional_witness :
    ∃ l, (aiDiagnosis [sE] wAlerts wActions).recommendations = l ++ [highRec4] ∧
      highRec4 ∉ l :=
  physical_inspection_unconditional [sE] wAlerts wActions
    (by norm_num [maxScoreOf, sE])

/-! ### C5 — a single unparseable sensor map -/

/-- Replace position `i`'s serialized sensor map by an unparseable one
(`none`), leaving every other field and row unchanged. -/
def corruptSensors : List ScoreRow → Nat → List ScoreRow
  | [], _ => []
  | r :: rs, 0 => { r with sensor_anomaly_score := none } :: rs
  | r :: rs, n + 1 => r :: corruptSensors rs n

/-- The timestamp at position `i` of the series (0 out of range). -/
def timeAt : List ScoreRow → Nat → ℚ
  | [], _ => 0
  | r :: _, 0 => r.time
  | _ :: rs, n + 1 => timeAt rs n

/-- Row-by-row relation between a series and its corrupted version: rows at
other timestamps are untouched, the row at the corrupted timestamp loses
only its sensor map. -/
def corruptRel (ti : ℚ) (a b : ScoreRow) : Prop :=
  (a.time ≠ ti ∧ b = a) ∨ (a.time = ti ∧ b = { a with sensor_anomaly_score := none })

theorem corruptRel_time {ti : ℚ} {a b : ScoreRow} (h : corruptRel ti a b) :
    b.time = a.time := by
  rcases h with ⟨-, rfl⟩ | ⟨-, rfl⟩ <;> rfl

theorem corruptRel_score {ti : ℚ} {a b : ScoreRow} (h : corruptRel ti a b) :
    a.product_anomaly_score = b.product_anomaly_score := by
  rcases h with ⟨-, rfl⟩ | ⟨-, rfl⟩ <;> rfl

theorem timeAt_mem : ∀ (rows : List ScoreRow) (n : Nat), n < rows.length →
    ∃ x ∈ rows, timeAt rows n = x.time := by
  intro rows
  induction rows with
  | nil => intro n h; simp at h
  | cons r rs ih =>
    intro n h
    cases n with
    | zero => exact ⟨r, List.mem_cons_self _ _, rfl⟩
    | succ n =>
      obtain ⟨x, hx, ht⟩ := ih n (by simpa using h)
      exact ⟨x, List.mem_cons_of_mem r hx, ht⟩

theorem forall2_corrupt : ∀ (rows : List ScoreRow) (i : Nat), i < rows.length →
    rows.Pairwise (fun a b => a.time < b.time) →
    List.Forall₂ (corruptRel (timeAt rows i)) rows (corruptSensors rows i) := by
  intro rows
  induction rows with
  | nil => intro i h; simp at h
  | cons r rs ih =>
    intro i hi hpw
    obtain ⟨hr, hrs⟩ := List.pairwise_cons.mp hpw
    cases i with
    | zero =>
      refine List.Forall₂.cons (Or.inr ⟨rfl, rfl⟩) ?_
      rw [List.forall₂_same]
      intro x hx
      exact Or.inl ⟨(hr x hx).ne', rfl⟩
    | succ n =>
      have hn : n < rs.length := by simpa using hi
      refine List.Forall₂.cons ?_ (ih n hn hrs)
      obtain ⟨x, hx, ht⟩ := timeAt_mem rs n hn
      exact Or.inl ⟨by show r.time ≠ timeAt rs n; rw [ht]; exact (hr x hx).ne, rfl⟩

theorem forall2_takeWhile {α β : Type*} {R : α → β → Prop} (p : α → Bool)
    (q : β → Bool) (hpq : ∀ a b, R a b → p a = q b) :
    ∀ {l : List α} {l' : List β}, List.Forall₂ R l l' →
      List.Forall₂ R (l.takeWhile p) (l'.takeWhile q) := by
  intro l l' h
  induction h with
  | nil => exact List.Forall₂.nil
  | @cons a b l l' hab htail ih =>
    by_cases hpa : p a
    · rw [List.takeWhile_cons_of_pos hpa,
        List.takeWhile_cons_of_pos (by rw [← hpq a b hab]; exact hpa)]
      exact List.Forall₂.cons hab ih
    · rw [List.takeWhile_cons_of_neg hpa,
        List.takeWhile_cons_of_neg (by rw [← hpq a b hab]; exact hpa)]
      exact List.Forall₂.nil

theorem forall2_dropWhile {α β : Type*} {R : α → β → Prop} (p : α → Bool)
    (q : β → Bool) (hpq : ∀ a b, R a b → p a = q b) :
    ∀ {l : List α} {l' : List β}, List.Forall₂ R l l' →
      List.Forall₂ R (l.dropWhile p) (l'.dropWhile q) := by
  intro l l' h
  induction h with
  | nil => exact List.Forall₂.nil
  | @cons a b l l' hab htail ih =>
    by_cases hpa : p a
    · rw [List.dropWhile_cons_of_pos hpa,
        List.dropWhile_cons_of_pos (by rw [← hpq a b hab]; exact hpa)]
      exact ih
    · rw [List.dropWhile_cons_of_neg hpa,
        List.dropWhile_cons_of_neg (by rw [← hpq a b hab]; exact hpa)]
      exact List.Forall₂.cons hab htail

/-- Two series whose rows agree on the aggregate score are segmented into
runs in lockstep. -/
theorem detectRuns_forall2 {R : ScoreRow → ScoreRow → Prop}
    (hscore : ∀ a b, R a b → a.product_anomaly_score = b.product_anomaly_score)
    (alpha : ℚ) :
    ∀ (rows rows' : List ScoreRow), List.Forall₂ R rows rows' →
      List.Forall₂ (List.Forall₂ R) (detectRuns alpha rows)
        (detectRuns alpha rows') := by
  have habove : ∀ a b, R a b → isAbove alpha a = isAbove alpha b := by
    intro a b h
    unfold isAbove
    rw [hscore a b h]
  have key : ∀ n (rows rows' : List ScoreRow), rows.length ≤ n →
      List.Forall₂ R rows rows' →
      List.Forall₂ (List.Forall₂ R) (detectRuns alpha rows)
        (detectRuns alpha rows') := by
    intro n
    induction n with
    | zero =>
      intro rows rows' hlen h
      have h1 : rows = [] := List.length_eq_zero.mp (Nat.le_zero.mp hlen)
      subst h1
      have h2 : rows' = [] := List.forall₂_nil_left_iff.mp h
      subst h2
      exact List.Forall₂.nil
    | succ n ih =>
      intro rows rows' hlen h
      cases h with
      | nil => exact List.Forall₂.nil
      | @cons a b l l' hab htail =>
        have hlen' : l.length ≤ n := Nat.le_of_succ_le_succ (by simpa using hlen)
        by_cases ha : isAbove alpha a = true
        · have hb : isAbove alpha b = true := by rw [← habove a b hab]; exact ha
          rw [detectRuns_cons_pos ha, detectRuns_cons_pos hb]
          refine List.Forall₂.cons
            (List.Forall₂.cons hab (forall2_takeWhile _ _ habove htail)) ?_
          exact ih _ _ (le_trans (List.dropWhile_sublist _).length_le hlen')
            (forall2_dropWhile _ _ habove htail)
        · have ha' : isAbove alpha a = false := by simpa using ha
          have hb' : isAbove alpha b = false := by rw [← habove a b hab]; exact ha'
          rw [detectRuns_cons_neg ha', detectRuns_cons_neg hb']
          exact ih _ _ hlen' htail
  exact fun rows rows' h => key rows.length rows rows' le_rfl h

theorem firstTime_forall2 {ti : ℚ} {run run' : List ScoreRow}
    (h : List.Forall₂ (corruptRel ti) run run') :
    firstTime run' = firstTime run := by
  cases h with
  | nil => rfl
  | cons hab _ => exact corruptRel_time hab

theorem lastTime_forall2 {ti : ℚ} : ∀ {run run' : List ScoreRow},
    List.Forall₂ (corruptRel ti) run run' → lastTime run' = lastTime run := by
  intro run run' h
  induction h with
  | nil => rfl
  | @cons a b l l' hab htail ih =>
    cases htail with
    | nil => exact corruptRel_time hab
    | cons hcd htail₂ => simpa [lastTime] using ih

theorem foldl_max_forall2 {ti : ℚ} : ∀ {l l' : List ScoreRow},
    List.Forall₂ (corruptRel ti) l l' → ∀ m : ℚ,
      l'.foldl (fun acc x => max acc x.product_anomaly_score) m =
      l.foldl (fun acc x => max acc x.product_anomaly_score) m := by
  intro l l' h
  induction h with
  | nil => intro m; rfl
  | @cons a b l l' hab htail ih =>
    intro m
    simp only [List.foldl_cons]
    rw [← corruptRel_score hab]
    exact ih _

theorem maxScoreOf_forall2 {ti : ℚ} {run run' : List ScoreRow}
    (h : List.Forall₂ (corruptRel ti) run run') :
    maxScoreOf run' = maxScoreOf run := by
  cases h with
  | nil => rfl
  | @cons a b l l' hab htail =>
    show l'.foldl _ b.product_anomaly_score = l.foldl _ a.product_anomaly_score
    rw [← corruptRel_score hab]
    exact foldl_max_forall2 htail _

/-- Corrupting the rows at timestamp `ti` removes exactly the sensor
anomalies stamped `ti`; all other points' contributions survive. -/
theorem sensorAnomalies_forall2 {ti : ℚ} : ∀ {run run' : List ScoreRow},
    List.Forall₂ (corruptRel ti) run run' →
      sensorAnomaliesOf run' =
        (sensorAnomaliesOf run).filter (fun s => decide (s.1 ≠ ti)) := by
  intro run run' h
  induction h with
  | nil => rfl
  | @cons a b l l' hab htail ih =>
    have hpoint : pointSensorAnomalies b =
        (pointSensorAnomalies a).filter (fun s => decide (s.1 ≠ ti)) := by
      rcases hab with ⟨hne, hba⟩ | ⟨heq, hba⟩
      · rw [hba]
        symm
        rw [List.filter_eq_self]
        intro s hs
        rw [pointSensorAnomalies_time a s hs]
        simpa using hne
      · rw [hba]
        have hnone : pointSensorAnomalies
            { a with sensor_anomaly_score := none } = [] := rfl
        rw [hnone]
        symm
        rw [List.filter_eq_nil_iff]
        intro s hs
        rw [pointSensorAnomalies_time a s hs, heq]
        simp
    show pointSensorAnomalies b ++ sensorAnomaliesOf l' =
      (pointSensorAnomalies a ++ sensorAnomaliesOf l).filter
        (fun s => decide (s.1 ≠ ti))
    rw [List.filter_append, hpoint, ih]

theorem mkAlarm_forall2 {ti : ℚ} {pid : String} {alert_df : List AlertRow}
    {run run' : List ScoreRow} (h : List.Forall₂ (corruptRel ti) run run') :
    mkAlarm pid alert_df run' =
      { mkAlarm pid alert_df run with
        sensor_anomalies := (mkAlarm pid alert_df run).sensor_anomalies.filter
          (fun s => decide (s.1 ≠ ti)) } := by
  have hf := firstTime_forall2 h
  have hl := lastTime_forall2 h
  have hm := maxScoreOf_forall2 h
  have hs := sensorAnomalies_forall2 h
  unfold mkAlarm
  simp only [durationMinutes, hf, hl, hm, hs]

/-- C5: corrupting one point's serialized sensor map changes nothing about
which runs are detected, their bounds, durations, scores or correlated
events; only the sensor anomalies stamped with the corrupted point's
timestamp disappear, the other points' anomalies are still collected, and
the scan still returns normally. -/
theorem corrupt_point_detection (pid : String) (alpha beta : ℚ)
    (alert_df : List AlertRow) (rows : List ScoreRow) (i : Nat)
    (hi : i < rows.length)
    (hrows : rows.Pairwise (fun a b => a.time < b.time)) :
    detectAlarms pid alpha beta alert_df (corruptSensors rows i) =
      (detectAlarms pid alpha beta alert_df rows).map
        (fun a => { a with
          sensor_anomalies :=
            a.sensor_anomalies.filter (fun s => decide (s.1 ≠ timeAt rows i)) }) := by
  have h2 := forall2_corrupt rows i hi hrows
  have hruns := detectRuns_forall2 (fun a b h => corruptRel_score h) alpha rows _ h2
  unfold detectAlarms
  generalize hL : detectRuns alpha rows = L at hruns ⊢
  generalize hL' : detectRuns alpha (corruptSensors rows i) = L' at hruns ⊢
  clear hL hL' h2
  induction hruns with
  | nil => rfl
  | @cons ra rb Ls Ls' hab htail ih =>
    have hdur : durationMinutes rb = durationMinutes ra := by
      unfold durationMinutes
      rw [firstTime_forall2 hab, lastTime_forall2 hab]
    by_cases hd : durationMinutes ra ≥ beta
    · rw [List.filterMap_cons_some (show _ = some (mkAlarm pid alert_df rb) from
          by rw [if_pos (show durationMinutes rb ≥ beta from by rw [hdur]; exact hd)]),
        List.filterMap_cons_some (show _ = some (mkAlarm pid alert_df ra) from
          by rw [if_pos hd]),
        List.map_cons, ih]
      congr 1
      exact mkAlarm_forall2 hab
    · rw [List.filterMap_cons_none
          (by rw [if_neg (show ¬ durationMinutes rb ≥ beta from by rw [hdur]; exact hd)]),
        List.filterMap_cons_none (by rw [if_neg hd])]
      exact ih

/-- Witness for C5: corrupting the first fixture point's sensor map leaves
the detected alarm in place with only that point's sensor evidence dropped. -/
theorem corrupt_point_detection_witness :
    detectAlarms "P1" 1 4 [] (corruptSensors wSeries 0) =
      (detectAlarms "P1" 1 4 [] wSeries).map
        (fun a => { a with
          sensor_anomalies :=
            a.sensor_anomalies.filter (fun s => decide (s.1 ≠ timeAt wSeries 0)) }) :=
  corrupt_point_detection "P1" 1 4 [] wSeries 0 (by decide) (by decide)

end MTSAD
